import Mathlib

/-!
Verification of the PIC24 primitive-sequence execution engine of
pykitcommander (picpack/pic24fj128ga705/common): the PIC24 compaction
codec, the Programming Executive (PE) request/response layer, the Debug
Executive (DE) response checking, the transport batcher, the TMOD /
TMOD-PE mode state machine and the flash write/read chunking logic.

All definitions are shallow embeddings of the Python source.  Byte values
are modelled as `Nat` (all source operations stay within 0..255 for byte
inputs), byte strings and lists as `List Nat`, mutation of an argument as
an explicit "state after the call" function, and Python exceptions as
`Except String`.
-/

namespace PyKitCommander

/-! ## The PIC24 compaction codec (gen4scriptwrapper.py)

`pic24_compact` first pads its argument **in place** with zero bytes to a
multiple of 8 (`while len(data) % 8: data.append(0)`), then for every
8-byte group emits the 6 bytes at offsets 0,1,2,6,4,5 (offsets 3 and 7
are the unimplemented upper bytes of the two 32-bit instruction-word
slots and are dropped).  `pic24_decompact` pads in place to a multiple of
6 and for every 6-byte group `c0..c5` emits `c0,c1,c2,0,c4,c5,c3,0`.

The in-place padding is modelled by `pic24_compact_post` /
`pic24_decompact_post`: the value the caller's list holds after the call
returns. -/

/-- Append `fill` bytes (`data ++ [fill, fill, ...]`) until the length is a multiple of `m`;
this is the `while len(data) % m: data.append(fill)` loop. -/
def padToMultiple (m : Nat) (fill : Nat) (data : List Nat) : List Nat :=
  data ++ List.replicate ((m - data.length % m) % m) fill

/-- Body of the `for i in range(0, len(data), 8)` loop of `pic24_compact`:
emit bytes 0,1,2,6,4,5 of each 8-byte group (bytes 3 and 7 dropped). -/
def compactCore : List Nat → List Nat
  | d0 :: d1 :: d2 :: _d3 :: d4 :: d5 :: d6 :: _d7 :: rest =>
      d0 :: d1 :: d2 :: d6 :: d4 :: d5 :: compactCore rest
  | _ => []

/-- Body of the `for i in range(0, len(data), 6)` loop of
`pic24_decompact`: each 6-byte group `c0..c5` expands to
`c0,c1,c2,0,c4,c5,c3,0`. -/
def decompactCore : List Nat → List Nat
  | c0 :: c1 :: c2 :: c3 :: c4 :: c5 :: rest =>
      c0 :: c1 :: c2 :: 0 :: c4 :: c5 :: c3 :: 0 :: decompactCore rest
  | _ => []

/-- Value of the caller's list after `pic24_compact(data)` returns: the
in-place zero padding to a multiple of 8 performed before conversion. -/
def pic24_compact_post (data : List Nat) : List Nat :=
  padToMultiple 8 0 data

/-- Value of the caller's list after `pic24_decompact(data)` returns: the
in-place zero padding to a multiple of 6 performed before conversion. -/
def pic24_decompact_post (data : List Nat) : List Nat :=
  padToMultiple 6 0 data

/-- Function `pic24_compact` of gen4scriptwrapper.py (return value). -/
def pic24_compact (data : List Nat) : List Nat :=
  compactCore (pic24_compact_post data)

/-- Function `pic24_decompact` of gen4scriptwrapper.py (return value). -/
def pic24_decompact (data : List Nat) : List Nat :=
  decompactCore (pic24_decompact_post data)

example : pic24_compact [1, 2, 3, 4, 5, 6, 7, 8] = [1, 2, 3, 7, 5, 6] := by decide

example : pic24_decompact [1, 2, 3, 7, 5, 6] = [1, 2, 3, 0, 5, 6, 7, 0] := by decide

example : pic24_decompact (pic24_compact [0, 0, 0, 1, 0, 0, 0, 0]) =
    [0, 0, 0, 0, 0, 0, 0, 0] := by decide

lemma getD_replicate_zero (k i : Nat) : (List.replicate k (0 : Nat)).getD i 0 = 0 := by
  induction k generalizing i with
  | zero => simp [List.getD]
  | succ n ih =>
      cases i with
      | zero => simp [List.replicate]
      | succ j => simp [List.replicate]

lemma getD_append_replicate_zero (x : List Nat) (k i : Nat) :
    (x ++ List.replicate k 0).getD i 0 = x.getD i 0 := by
  induction x generalizing i with
  | nil => simp [getD_replicate_zero k i]
  | cons a t ih =>
      cases i with
      | zero => simp
      | succ j => simpa using ih j

lemma getD_padToMultiple_zero (m : Nat) (x : List Nat) (i : Nat) :
    (padToMultiple m 0 x).getD i 0 = x.getD i 0 :=
  getD_append_replicate_zero x _ i

lemma padToMultiple_length_mod (m fill : Nat) (hm : 0 < m) (x : List Nat) :
    (padToMultiple m fill x).length % m = 0 := by
  simp only [padToMultiple, List.length_append, List.length_replicate]
  rcases Nat.eq_zero_or_pos (x.length % m) with h0 | hpos
  · rw [h0, Nat.sub_zero, Nat.mod_self, Nat.add_zero, h0]
  · have hr : x.length % m < m := Nat.mod_lt _ hm
    have h1 : (m - x.length % m) % m = m - x.length % m := Nat.mod_eq_of_lt (by omega)
    rw [h1, Nat.add_mod, h1, show x.length % m + (m - x.length % m) = m by omega,
      Nat.mod_self]

lemma padToMultiple_eq_self (m fill : Nat) (y : List Nat) (h : y.length % m = 0) :
    padToMultiple m fill y = y := by
  simp [padToMultiple, h, Nat.mod_self]

lemma getD_cons_add_eight (a0 a1 a2 a3 a4 a5 a6 a7 : Nat) (l : List Nat) (i : Nat) :
    (a0 :: a1 :: a2 :: a3 :: a4 :: a5 :: a6 :: a7 :: l).getD (i + 8) 0 = l.getD i 0 :=
  rfl

lemma compactCore_length : ∀ (n : Nat) (l : List Nat), l.length = 8 * n →
    (compactCore l).length = 6 * n := by
  intro n
  induction n with
  | zero =>
      intro l hl
      have : l = [] := List.eq_nil_of_length_eq_zero (by omega)
      subst this; rfl
  | succ k ih =>
      intro l hl
      rcases l with _ | ⟨d0, _ | ⟨d1, _ | ⟨d2, _ | ⟨d3, _ |
        ⟨d4, _ | ⟨d5, _ | ⟨d6, _ | ⟨d7, rest⟩⟩⟩⟩⟩⟩⟩⟩ <;>
          simp only [List.length_cons, List.length_nil] at hl <;> try omega
      have hr : rest.length = 8 * k := by omega
      simp only [compactCore, List.length_cons, ih rest hr]
      omega

lemma roundtripCore : ∀ (n : Nat) (l : List Nat), l.length = 8 * n →
    (∀ i, i % 8 = 3 ∨ i % 8 = 7 → l.getD i 0 = 0) →
    decompactCore (compactCore l) = l := by
  intro n
  induction n with
  | zero =>
      intro l hl _
      have : l = [] := List.eq_nil_of_length_eq_zero (by omega)
      subst this; rfl
  | succ k ih =>
      intro l hl hz
      rcases l with _ | ⟨d0, _ | ⟨d1, _ | ⟨d2, _ | ⟨d3, _ |
        ⟨d4, _ | ⟨d5, _ | ⟨d6, _ | ⟨d7, rest⟩⟩⟩⟩⟩⟩⟩⟩ <;>
          simp only [List.length_cons, List.length_nil] at hl <;> try omega
      have h3 : d3 = 0 := hz 3 (Or.inl rfl)
      have h7 : d7 = 0 := hz 7 (Or.inr rfl)
      have hrest : decompactCore (compactCore rest) = rest := by
        apply ih rest (by omega)
        intro i hi
        have h := hz (i + 8) (by omega)
        rwa [getD_cons_add_eight] at h
      simp [compactCore, decompactCore, h3, h7, hrest]

/-- C1: the claimed unconditional round-trip `decompact(compact(x)) == x`
is false: `pic24_compact` drops bytes 3 and 7 of each 8-byte group, so
the input `[0,0,0,1,0,0,0,0]` (length a multiple of 8) does not survive
the round trip — it comes back as `[0,0,0,0,0,0,0,0]`. -/
theorem pic24_roundtrip_counterexample :
    ([0, 0, 0, 1, 0, 0, 0, 0] : List Nat).length % 8 = 0 ∧
    pic24_decompact (pic24_compact [0, 0, 0, 1, 0, 0, 0, 0]) ≠ [0, 0, 0, 1, 0, 0, 0, 0] := by
  decide

/-- C1 (amended): for byte arrays whose bytes at offsets 3 and 7 of every
8-byte group are zero (the unimplemented upper bytes of each PIC24
instruction-word slot), the round trip holds: `pic24_decompact
(pic24_compact x)` equals `x` zero-padded to the next multiple of 8, and
equals `x` itself when the length is already a multiple of 8. -/
theorem pic24_roundtrip_amended (x : List Nat)
    (hz : ∀ i, i % 8 = 3 ∨ i % 8 = 7 → x.getD i 0 = 0) :
    pic24_decompact (pic24_compact x) = padToMultiple 8 0 x ∧
    (x.length % 8 = 0 → pic24_decompact (pic24_compact x) = x) := by
  have hlen : (padToMultiple 8 0 x).length % 8 = 0 :=
    padToMultiple_length_mod 8 0 (by omega) x
  obtain ⟨n, hn⟩ : ∃ n, (padToMultiple 8 0 x).length = 8 * n :=
    ⟨(padToMultiple 8 0 x).length / 8, by omega⟩
  have hcomp : (compactCore (padToMultiple 8 0 x)).length = 6 * n :=
    compactCore_length n _ hn
  have hmain : pic24_decompact (pic24_compact x) = padToMultiple 8 0 x := by
    unfold pic24_decompact pic24_compact pic24_decompact_post pic24_compact_post
    rw [padToMultiple_eq_self 6 0 _ (by omega)]
    apply roundtripCore n _ hn
    intro i hi
    rw [getD_padToMultiple_zero]
    exact hz i hi
  refine ⟨hmain, fun h8 => ?_⟩
  rw [hmain, padToMultiple_eq_self 8 0 x h8]

/-- C1 witness: the amended round trip evaluated at the concrete input
`[1,2,3,0,5,6,7,0]`, whose phantom bytes (offsets 3 and 7) are zero. -/
theorem pic24_roundtrip_amended_witness :
    pic24_decompact (pic24_compact [1, 2, 3, 0, 5, 6, 7, 0]) = [1, 2, 3, 0, 5, 6, 7, 0] := by
  have hz : ∀ i, i % 8 = 3 ∨ i % 8 = 7 →
      ([1, 2, 3, 0, 5, 6, 7, 0] : List Nat).getD i 0 = 0 := by
    intro i hi
    rcases Nat.lt_or_ge i 8 with h | h
    · interval_cases i <;> simp_all
    · exact List.getD_eq_default _ _ (by simpa using h)
  exact (pic24_roundtrip_amended [1, 2, 3, 0, 5, 6, 7, 0] hz).2 (by decide)

/-- C10: `pic24_compact` and `pic24_decompact` mutate their argument in
place: after the call the caller's list holds the zero-padded value
(`pic24_compact_post` / `pic24_decompact_post`), which differs from the
original exactly when the length is not a multiple of 8 (compact) or 6
(decompact); the appended bytes are zeros, and the returned list is
computed from the mutated (padded) argument. -/
theorem pic24_codec_argument_mutation (x : List Nat) :
    (pic24_compact_post x = x ↔ x.length % 8 = 0) ∧
    (pic24_decompact_post x = x ↔ x.length % 6 = 0) ∧
    (∃ k, pic24_compact_post x = x ++ List.replicate k 0) ∧
    (∃ k, pic24_decompact_post x = x ++ List.replicate k 0) ∧
    pic24_compact x = compactCore (pic24_compact_post x) ∧
    pic24_decompact x = decompactCore (pic24_decompact_post x) := by
  refine ⟨?_, ?_, ⟨_, rfl⟩, ⟨_, rfl⟩, rfl, rfl⟩
  · constructor
    · intro h
      have := congrArg List.length h
      simp only [pic24_compact_post, padToMultiple, List.length_append,
        List.length_replicate] at this
      omega
    · intro h
      exact padToMultiple_eq_self 8 0 x h
  · constructor
    · intro h
      have := congrArg List.length h
      simp only [pic24_decompact_post, padToMultiple, List.length_append,
        List.length_replicate] at this
      omega
    · intro h
      exact padToMultiple_eq_self 6 0 x h

/-! ## Programming Executive protocol (programexecinterfaceprovider.py)

`ProgExecInterfacePic24` encodes a PE command as
`(command << 12) | length`, sends operand words, handshakes, then
receives the response.  For `_read_flash_proxy_command` the host computes
how many 16-bit words remain after the two header words
(`num16bitwords`); `_memory_read_bytes_expected_from_pe` computes the
total expected response size in bytes; `_check_pe_response` validates a
response frame. -/

/-- PE response status nibble PASS. -/
def PE_STATUS_PASS : Nat := 0x1

/-- PE response status nibble FAIL. -/
def PE_STATUS_FAIL : Nat := 0x2

/-- PE response status nibble NACK. -/
def PE_STATUS_NACK : Nat := 0x3

/-- The `num16bitwords` computation of `_read_flash_proxy_command`: the
number of 16-bit data words received in the trailing `receive_word` loop
(after the two header words), for a given instruction-word count. -/
def read_flash_num16bitwords (num_instructionwords : Nat) : Nat :=
  if num_instructionwords % 2 = 1 then 2 + 3 * (num_instructionwords - 1) / 2
  else 3 * num_instructionwords / 2

/-- Total number of `receive_word` invocations `_read_flash_proxy_command`
issues after the handshake: two header words plus the data-word loop. -/
def read_flash_proxy_receive_words (num_instructionwords : Nat) : Nat :=
  2 + read_flash_num16bitwords num_instructionwords

/-- Method `_memory_read_bytes_expected_from_pe`: number of bytes the PE
response will contain for a read of `read_numbytes` (decompacted) data
bytes. -/
def memory_read_bytes_expected_from_pe (read_numbytes : Nat) : Nat :=
  if (read_numbytes / 4) % 2 = 1 then 8 + 3 * (read_numbytes - 4) / 4
  else 4 + 3 * read_numbytes / 4

/-- C2: the spec's even/odd formulas are swapped relative to the code.
At the even instruction-word count N = 2 both host-side computations
(`_memory_read_bytes_expected_from_pe` and the `receive_word` count of
`_read_flash_proxy_command`) give 10 wire bytes (5 sixteen-bit words),
not the claimed `4 + 3*N/2 = 7`. -/
theorem pe_read_chunk_formula_counterexample :
    memory_read_bytes_expected_from_pe (4 * 2) = 10 ∧
    2 * read_flash_proxy_receive_words 2 = 10 ∧
    (4 + 3 * 2 / 2 : Nat) = 7 ∧ (10 : Nat) ≠ 7 := by decide

/-- C2 (amended): for every instruction-word count N with
1 ≤ N ≤ 32768, the two host-side computations agree, and the expected
wire size is: even N → `4 + 3*N` bytes (i.e. `2 + 3*N/2` sixteen-bit
words); odd N → `8 + 3*(N-1)` bytes (i.e. `4 + 3*(N-1)/2` words) — the
even/odd constants the spec swapped. -/
theorem pe_read_chunk_accounting_amended (n : Nat) (h1 : 1 ≤ n) (h2 : n ≤ 32768) :
    memory_read_bytes_expected_from_pe (4 * n) = 2 * read_flash_proxy_receive_words n ∧
    memory_read_bytes_expected_from_pe (4 * n) =
      (if n % 2 = 0 then 4 + 3 * n else 8 + 3 * (n - 1)) ∧
    read_flash_proxy_receive_words n =
      (if n % 2 = 0 then 2 + 3 * n / 2 else 4 + 3 * (n - 1) / 2) := by
  unfold memory_read_bytes_expected_from_pe read_flash_proxy_receive_words
    read_flash_num16bitwords
  rw [show 4 * n / 4 = n by omega]
  split_ifs <;> omega

/-- C2 witness: the amended accounting evaluated at the even count N = 2. -/
theorem pe_read_chunk_accounting_witness :
    memory_read_bytes_expected_from_pe (4 * 2) = 2 * read_flash_proxy_receive_words 2 ∧
    memory_read_bytes_expected_from_pe (4 * 2) =
      (if 2 % 2 = 0 then 4 + 3 * 2 else 8 + 3 * (2 - 1)) ∧
    read_flash_proxy_receive_words 2 =
      (if 2 % 2 = 0 then 2 + 3 * 2 / 2 else 4 + 3 * (2 - 1) / 2) :=
  pe_read_chunk_accounting_amended 2 (by decide) (by decide)

/-- Little-endian 16-bit unpack (`pyedbglib.util.binary.unpack_le16`)
applied to the two bytes of the length field. -/
def unpack_le16 (b0 b1 : Nat) : Nat := b0 + 256 * b1

/-- Method `_check_pe_response`: extract the status nibble and command echo from
byte 2, the little-endian length field from bytes 3–4, and the packed
payload from byte 5 on; FAIL or NACK status, an echo mismatch, a length
mismatch or a decompacted-size mismatch raise; otherwise the decompacted
payload is returned.  A status nibble equal to PASS is only logged, and
any status other than FAIL and NACK falls through to the remaining
checks. -/
def check_pe_response (cmd databytes : Nat) (response : List Nat) :
    Except String (List Nat) :=
  match response with
  | _errorcode :: b1 :: b2 :: b3 :: rest =>
    if ((b1 &&& 0xF0) >>> 4) &&& 0x0F = PE_STATUS_FAIL then
      Except.error "PE command faild, response status: FAIL"
    else if ((b1 &&& 0xF0) >>> 4) &&& 0x0F = PE_STATUS_NACK then
      Except.error "PE command faild, response status: NACK"
    else if b1 &&& 0x0F ≠ cmd then
      Except.error "Unexpected command echo in response"
    else if unpack_le16 b2 b3 * 2 ≠ databytes * 3 / 4 + 4 then
      Except.error "Unexpected number of bytes returned"
    else if (pic24_decompact rest).length ≠ databytes then
      Except.error "Response did not contain the expected number of bytes"
    else
      Except.ok (pic24_decompact rest)
  | _ => Except.error "IndexError: response shorter than the 4-byte header"

/-- C3: "returns data only if the status nibble is PASS" is false: a
response whose status nibble is 0 (neither PASS, FAIL nor NACK) with a
matching command echo and length field is accepted and its payload
returned. -/
theorem check_pe_response_pass_only_counterexample :
    check_pe_response 2 8 [0, 0x02, 5, 0, 0, 0, 0, 0, 0, 0] =
      Except.ok [0, 0, 0, 0, 0, 0, 0, 0] ∧
    ((0x02 &&& 0xF0) >>> 4) &&& 0x0F ≠ PE_STATUS_PASS := by
  refine ⟨rfl, by decide⟩

/-- C3 (amended): `_check_pe_response` returns decompacted payload data
only if the status nibble of byte 2 is neither FAIL nor NACK, the
command-echo nibble equals the command sent, and the 16-bit length field
converted to bytes equals `4 + (3*databytes)/4`; FAIL or NACK status, an
echo mismatch, or a length mismatch raise a protocol error and return no
data. -/
theorem check_pe_response_validation_amended (cmd databytes b0 b1 b2 b3 : Nat)
    (rest : List Nat) :
    ((((b1 &&& 0xF0) >>> 4) &&& 0x0F = PE_STATUS_FAIL ∨
      ((b1 &&& 0xF0) >>> 4) &&& 0x0F = PE_STATUS_NACK) →
      ∃ e, check_pe_response cmd databytes (b0 :: b1 :: b2 :: b3 :: rest) =
        Except.error e) ∧
    (b1 &&& 0x0F ≠ cmd →
      ∃ e, check_pe_response cmd databytes (b0 :: b1 :: b2 :: b3 :: rest) =
        Except.error e) ∧
    (unpack_le16 b2 b3 * 2 ≠ databytes * 3 / 4 + 4 →
      ∃ e, check_pe_response cmd databytes (b0 :: b1 :: b2 :: b3 :: rest) =
        Except.error e) ∧
    (∀ d, check_pe_response cmd databytes (b0 :: b1 :: b2 :: b3 :: rest) =
        Except.ok d →
      ((b1 &&& 0xF0) >>> 4) &&& 0x0F ≠ PE_STATUS_FAIL ∧
      ((b1 &&& 0xF0) >>> 4) &&& 0x0F ≠ PE_STATUS_NACK ∧
      b1 &&& 0x0F = cmd ∧ unpack_le16 b2 b3 * 2 = databytes * 3 / 4 + 4 ∧
      d = pic24_decompact rest ∧ (pic24_decompact rest).length = databytes) := by
  simp only [check_pe_response]
  split_ifs with hFail hNack hEcho hLen hData <;> simp_all

/-- C3 witness: a FAIL-status frame (byte 2 = 0x22: status nibble FAIL,
echo 2) is rejected by the amended validation theorem. -/
theorem check_pe_response_validation_witness :
    ∃ e, check_pe_response 2 8 [1, 0x22, 5, 0, 0, 0, 0, 0, 0, 0] = Except.error e :=
  (check_pe_response_validation_amended 2 8 1 0x22 5 0 [0, 0, 0, 0, 0, 0]).1
    (Or.inl (by decide))

/-! ## Transport batcher (primitiveproxy.py, `TransportProxy`)

`TransportProxy` accumulates sequence blocks (`content`, with running
byte count `length`) up to `blocksize`.  `send_block` flushes first when
the new block would overflow, then always appends; `sync` always flushes
and returns the flush result.  `_flush` serializes the accumulated
blocks, submits them in one `transport.execute` call, clears the
accumulator, and keeps only the last result (`results[-1]`).

The transport is modelled by the per-block response function `resp`
(`execute` returns one response per submitted block); the state records
every `execute` call in `executes` so flush timing and contents are
observable.  An empty flush (`results[-1]` on no results) is modelled by
`Option`. -/

structure TransportProxyState where
  content : List (List Nat)
  length : Nat
  executes : List (List (List Nat))
  deriving Repr, DecidableEq

/-- The freshly `reset` proxy state (empty accumulator, nothing executed). -/
def TransportProxyState.initial : TransportProxyState :=
  { content := [], length := 0, executes := [] }

/-- Method `TransportProxy._flush`: submit the accumulated blocks as one
transport execution, reset the accumulator, and return only the last
block's result. -/
def transport_flush (resp : List Nat → List Nat) (s : TransportProxyState) :
    TransportProxyState × Option (List Nat) :=
  ({ content := [], length := 0, executes := s.executes ++ [s.content] },
   (s.content.map resp).getLast?)

/-- Method `TransportProxy.send_block`: flush first if the block does not fit,
then append it and grow the running length. -/
def transport_send_block (blocksize : Nat) (resp : List Nat → List Nat)
    (s : TransportProxyState) (block : List Nat) : TransportProxyState :=
  let s' := if blocksize < s.length + block.length then (transport_flush resp s).1 else s
  { s' with content := s'.content ++ [block], length := s'.length + block.length }

/-- Method `TransportProxy.sync`: always flush; the flush result is the sync
result. -/
def transport_sync (resp : List Nat → List Nat) (s : TransportProxyState) :
    TransportProxyState × Option (List Nat) :=
  transport_flush resp s

/-- A sequence of `send_block` calls. -/
def transport_send_blocks (blocksize : Nat) (resp : List Nat → List Nat)
    (s : TransportProxyState) (blocks : List (List Nat)) : TransportProxyState :=
  blocks.foldl (transport_send_block blocksize resp) s

lemma transport_send_blocks_cons (blocksize : Nat) (resp : List Nat → List Nat)
    (s : TransportProxyState) (b : List Nat) (bs : List (List Nat)) :
    transport_send_blocks blocksize resp s (b :: bs) =
      transport_send_blocks blocksize resp (transport_send_block blocksize resp s b) bs :=
  rfl

/-- Total byte size of a list of blocks. -/
def blocksSize (blocks : List (List Nat)) : Nat :=
  (blocks.map List.length).sum

lemma transport_send_blocks_no_flush (blocksize : Nat) (resp : List Nat → List Nat) :
    ∀ (bs : List (List Nat)) (s : TransportProxyState),
      s.length + blocksSize bs ≤ blocksize →
      transport_send_blocks blocksize resp s bs =
        { content := s.content ++ bs, length := s.length + blocksSize bs,
          executes := s.executes } := by
  intro bs
  induction bs with
  | nil =>
      intro s _
      simp [transport_send_blocks, blocksSize]
  | cons b bs ih =>
      intro s hfit
      have hb : ¬ blocksize < s.length + b.length := by
        simp only [blocksSize, List.map_cons, List.sum_cons] at hfit
        omega
      rw [transport_send_blocks_cons]
      have hstep : transport_send_block blocksize resp s b =
          { content := s.content ++ [b], length := s.length + b.length,
            executes := s.executes } := by
        simp [transport_send_block, hb]
      rw [hstep, ih]
      · simp only [blocksSize, List.map_cons, List.sum_cons, List.append_assoc,
          List.singleton_append, TransportProxyState.mk.injEq, true_and, and_true]
        omega
      · simp only [blocksSize, List.map_cons, List.sum_cons] at hfit ⊢
        omega

/-- C4: transport batcher semantics.  `send_block` always appends the new
block, and leaves the transport untouched exactly when the block fits
(`runningLength + len(b) ≤ C`); `sync` always flushes and returns only
the final block's result.  Consequently, for a run of blocks
`xs ++ y :: ys` whose cumulative size exceeds the capacity exactly once
(at `y`), exactly two transport executions happen: the first containing
exactly the blocks `xs` that fit, the second the rest, and the sync
result is the last block's response. -/
theorem transport_batcher_semantics (blocksize : Nat) (resp : List Nat → List Nat)
    (xs : List (List Nat)) (y : List Nat) (ys : List (List Nat))
    (hxs : blocksSize xs ≤ blocksize)
    (hover : blocksize < blocksSize xs + y.length)
    (hrest : blocksSize (y :: ys) ≤ blocksize) :
    (∀ s b, (transport_send_block blocksize resp s b).content.getLast? = some b ∧
      ((transport_send_block blocksize resp s b).executes = s.executes ↔
        s.length + b.length ≤ blocksize)) ∧
    (transport_sync resp (transport_send_blocks blocksize resp
        TransportProxyState.initial (xs ++ y :: ys))).1.executes = [xs, y :: ys] ∧
    (transport_sync resp (transport_send_blocks blocksize resp
        TransportProxyState.initial (xs ++ y :: ys))).2 =
      ((y :: ys).map resp).getLast? := by
  have hrun : transport_send_blocks blocksize resp TransportProxyState.initial
      (xs ++ y :: ys) =
      { content := y :: ys, length := blocksSize (y :: ys), executes := [xs] } := by
    have h1 : transport_send_blocks blocksize resp TransportProxyState.initial xs =
        { content := xs, length := blocksSize xs, executes := [] } := by
      have := transport_send_blocks_no_flush blocksize resp xs
        TransportProxyState.initial (by simpa [TransportProxyState.initial] using hxs)
      simpa [TransportProxyState.initial] using this
    have h2 : transport_send_block blocksize resp
        { content := xs, length := blocksSize xs, executes := [] } y =
        { content := [y], length := y.length, executes := [xs] } := by
      simp [transport_send_block, transport_flush, hover]
    have h3 : transport_send_blocks blocksize resp
        { content := [y], length := y.length, executes := [xs] } ys =
        { content := y :: ys, length := y.length + blocksSize ys,
          executes := [xs] } := by
      have hfit : y.length + blocksSize ys ≤ blocksize := by
        simp only [blocksSize, List.map_cons, List.sum_cons] at hrest ⊢
        omega
      simpa using transport_send_blocks_no_flush blocksize resp ys
        { content := [y], length := y.length, executes := [xs] } hfit
    calc transport_send_blocks blocksize resp TransportProxyState.initial (xs ++ y :: ys)
        = transport_send_blocks blocksize resp
            (transport_send_blocks blocksize resp TransportProxyState.initial xs)
            (y :: ys) := by
          simp [transport_send_blocks, List.foldl_append]
      _ = { content := y :: ys, length := y.length + blocksSize ys,
            executes := [xs] } := by
          rw [h1, transport_send_blocks_cons, h2, h3]
      _ = { content := y :: ys, length := blocksSize (y :: ys), executes := [xs] } := by
          simp [blocksSize]
  refine ⟨?_, ?_, ?_⟩
  · intro s b
    constructor
    · by_cases hb : blocksize < s.length + b.length <;>
        simp [transport_send_block, transport_flush, hb]
    · by_cases hb : blocksize < s.length + b.length
      · simp [transport_send_block, transport_flush, hb]
      · simp [transport_send_block, transport_flush, hb]
        omega
  · rw [hrun]; simp [transport_sync, transport_flush]
  · rw [hrun]; simp [transport_sync, transport_flush]

/-- C4 witness: capacity 5, blocks `[1,2]`, `[3]` (fitting), then
`[4,5,6]` overflowing once; two executions result, the first holding
exactly the fitting blocks, and sync returns the last block's response. -/
theorem transport_batcher_semantics_witness :
    (transport_sync id (transport_send_blocks 5 id TransportProxyState.initial
        [[1, 2], [3], [4, 5, 6]])).1.executes = [[[1, 2], [3]], [[4, 5, 6]]] ∧
    (transport_sync id (transport_send_blocks 5 id TransportProxyState.initial
        [[1, 2], [3], [4, 5, 6]])).2 = some [4, 5, 6] := by
  have h := transport_batcher_semantics 5 id [[1, 2], [3]] [4, 5, 6] []
    (by decide) (by decide) (by decide)
  exact ⟨h.2.1, h.2.2⟩

/-! ## Mode state machine (gen4engineinterface.py, `Gen4WrapperDebugger`)

`enter_tmod`, `enter_tmod_pe` and `exit_tmod` drive the `_in_tmod` /
`_in_tmod_pe` flags.  Each hardware invocation performed by these
methods (and by `_write_flash_chunk`) is recorded as a trace event so
call ordering is observable.  `enter_tmod` is modelled on its success
path (the device-ID check passing); a failed ID read raises before
`_in_tmod` is set and so cannot make both flags true either. -/

inductive Gen4Event where
  | setSpeed
  | enterTmodPrim
  | readId
  | setSpeedPe
  | enterTmodPePrim
  | checkPeConnection
  | exitTmodPrim
  | writePagePe (byte_address : Nat) (data : List Nat)
  | writePageRaw (byte_address : Nat) (data : List Nat)
  deriving Repr, DecidableEq

structure Gen4State where
  in_tmod : Bool
  in_tmod_pe : Bool
  use_pe : Bool
  trace : List Gen4Event
  deriving Repr, DecidableEq

/-- The initial (idle) debugger state: both mode flags false. -/
def Gen4State.idle : Gen4State :=
  { in_tmod := false, in_tmod_pe := false, use_pe := false, trace := [] }

/-- Method `exit_tmod`: early-return when already out of both modes, otherwise
invoke the exit-TMOD script and clear both flags. -/
def exit_tmod (s : Gen4State) : Gen4State :=
  if s.in_tmod = false ∧ s.in_tmod_pe = false then s
  else { s with
         trace := s.trace ++ [Gen4Event.exitTmodPrim]
         in_tmod := false
         in_tmod_pe := false }

/-- Method `enter_tmod`: early-return when already in TMOD; if PE mode is
active, `exit_tmod` first; then set the ICSP speed, invoke enter-TMOD,
read the device ID, and set `_in_tmod`. -/
def enter_tmod (s : Gen4State) : Gen4State :=
  if s.in_tmod = true then s
  else
    let s' := if s.in_tmod_pe = true then exit_tmod s else s
    { s' with
      trace := s'.trace ++ [Gen4Event.setSpeed, Gen4Event.enterTmodPrim, Gen4Event.readId]
      in_tmod := true }

/-- Method `enter_tmod_pe`: early-return when already in PE mode; if raw TMOD is
active, `exit_tmod` first; then set the PE ICSP speed, invoke
enter-TMOD-PE, check the PE connection, and set `_in_tmod_pe`. -/
def enter_tmod_pe (s : Gen4State) : Gen4State :=
  if s.in_tmod_pe = true then s
  else
    let s' := if s.in_tmod = true then exit_tmod s else s
    { s' with
      trace := s'.trace ++
        [Gen4Event.setSpeedPe, Gen4Event.enterTmodPePrim, Gen4Event.checkPeConnection]
      in_tmod_pe := true }

inductive ModeCall where
  | enterTmod
  | enterTmodPe
  | exitTmod
  deriving Repr, DecidableEq

def applyModeCall (s : Gen4State) : ModeCall → Gen4State
  | ModeCall.enterTmod => enter_tmod s
  | ModeCall.enterTmodPe => enter_tmod_pe s
  | ModeCall.exitTmod => exit_tmod s

/-- A sequence of mode-transition calls. -/
def runModeCalls (calls : List ModeCall) (s : Gen4State) : Gen4State :=
  calls.foldl applyModeCall s

/-- One mode call keeps the flags mutually exclusive. -/
lemma applyModeCall_exclusive (c : ModeCall) (s : Gen4State)
    (h : s.in_tmod = false ∨ s.in_tmod_pe = false) :
    (applyModeCall s c).in_tmod = false ∨ (applyModeCall s c).in_tmod_pe = false := by
  cases c <;>
    simp only [applyModeCall, enter_tmod, enter_tmod_pe, exit_tmod] <;>
    split_ifs <;> simp_all

/-- C5: from the idle state, no sequence of `enter_tmod`,
`enter_tmod_pe` and `exit_tmod` calls ever makes `_in_tmod` and
`_in_tmod_pe` both true; a call to `enter_tmod_pe` while `_in_tmod` is
set invokes the exit-TMOD script before the enter-TMOD-PE script;
symmetrically for `enter_tmod` while `_in_tmod_pe` is set. -/
theorem mode_exclusivity :
    (∀ calls : List ModeCall,
      (runModeCalls calls Gen4State.idle).in_tmod = false ∨
      (runModeCalls calls Gen4State.idle).in_tmod_pe = false) ∧
    (∀ (u : Bool) (tr : List Gen4Event),
      (enter_tmod_pe ⟨true, false, u, tr⟩).trace =
        tr ++ [Gen4Event.exitTmodPrim, Gen4Event.setSpeedPe,
          Gen4Event.enterTmodPePrim, Gen4Event.checkPeConnection]) ∧
    (∀ (u : Bool) (tr : List Gen4Event),
      (enter_tmod ⟨false, true, u, tr⟩).trace =
        tr ++ [Gen4Event.exitTmodPrim, Gen4Event.setSpeed,
          Gen4Event.enterTmodPrim, Gen4Event.readId]) := by
  refine ⟨?_, ?_, ?_⟩
  · have main : ∀ (calls : List ModeCall) (s : Gen4State),
        s.in_tmod = false ∨ s.in_tmod_pe = false →
        (runModeCalls calls s).in_tmod = false ∨
        (runModeCalls calls s).in_tmod_pe = false := by
      intro calls
      induction calls with
      | nil => intro s h; exact h
      | cons c cs ih =>
          intro s h
          exact ih (applyModeCall s c) (applyModeCall_exclusive c s h)
    intro calls
    exact main calls Gen4State.idle (Or.inl rfl)
  · intro u tr
    simp [enter_tmod_pe, exit_tmod]
  · intro u tr
    simp [enter_tmod, exit_tmod]

/-! ## Debug Executive response checking (gen4engineinterface.py)

`_check_de_response` is invoked on the raw response of every write-class
DE command (`debug_write_memory`, `debug_write_emulation`, `run`,
`halt`, `step`).  It looks at the response only when the command byte
echoes `DE_COMMAND` (0x31) or `DE_COMMAND_DATA_ONLY` (0x35), and raises
only for the five handshake/transfer timeout statuses 0x81–0x85. -/

/-- DE command opcode echoed in responses. -/
def DE_COMMAND : Nat := 0x31

/-- DE data-only command opcode echoed in responses. -/
def DE_COMMAND_DATA_ONLY : Nat := 0x35

/-- Method `_check_de_response`: raise for status 0x81–0x85 when the command
byte is a DE command echo; anything else returns normally.  (The logger
reads bytes 0–3, so a matching frame shorter than 4 bytes is an index
error.) -/
def check_de_response (result : List Nat) : Except String Unit :=
  match result with
  | cmd :: rest =>
    if cmd = DE_COMMAND ∨ cmd = DE_COMMAND_DATA_ONLY then
      match rest with
      | status :: _ :: _ :: _ =>
        if status = 0x81 then
          Except.error "Timeout waiting for DE handshake to signal clock high"
        else if status = 0x82 then
          Except.error "Timeout waiting for DE handshake to signal clock low"
        else if status = 0x83 then
          Except.error "Timeout waiting for DE transfer to signal clock high"
        else if status = 0x84 then
          Except.error "Timeout waiting for DE transfer to signal clock high"
        else if status = 0x85 then
          Except.error "Timeout waiting for DE transfer to signal data low"
        else Except.ok ()
      | _ => Except.error "IndexError: DE response shorter than 4 bytes"
    else Except.ok ()
  | [] => Except.error "IndexError: empty DE response"

/-- C7: "any nonzero status word raises" is false: a DE response with the
nonzero status 0x01 passes `_check_de_response` without an exception. -/
theorem check_de_response_nonzero_counterexample :
    check_de_response [0x31, 0x01, 0, 0] = Except.ok () ∧ (0x01 : Nat) ≠ 0 :=
  ⟨rfl, by decide⟩

/-- C7 (amended): `_check_de_response` — applied to the raw response of
every write-class DE command — raises exactly when the response's command
byte echoes 0x31 or 0x35 and its status word is one of the five timeout
codes 0x81–0x85; every other status (including other nonzero values)
returns normally. -/
theorem check_de_response_amended (cmd status b2 b3 : Nat) :
    (∃ e, check_de_response [cmd, status, b2, b3] = Except.error e) ↔
      ((cmd = DE_COMMAND ∨ cmd = DE_COMMAND_DATA_ONLY) ∧
       (status = 0x81 ∨ status = 0x82 ∨ status = 0x83 ∨ status = 0x84 ∨
        status = 0x85)) := by
  simp only [check_de_response]
  split_ifs <;> simp_all

/-! ## Config-word writes and `_write_flash_chunk` (gen4engineinterface.py) -/

/-- First byte address of configuration memory for the PIC24FJ128GA705
(`CONFIG_START_ADDRESS_BYTE` of pic24fj128ga705pds.py, returned by
`get_config_start_address_byte`). -/
def CONFIG_START_ADDRESS_BYTE : Nat := 0x2BE00

/-- Method `_write_flash_chunk`: when PE mode is in use and the chunk reaches
past the config-words start address, drop the `use_pe` flag, exit
TMOD-PE, enter raw TMOD, issue the page write without PE, then restore
the flag, exit TMOD and re-enter TMOD-PE; otherwise write directly in
the current mode. -/
def write_flash_chunk (config_start : Nat) (s : Gen4State)
    (byte_address : Nat) (data : List Nat) : Gen4State :=
  let use_pe_original := s.use_pe
  let s1 := if s.use_pe = true ∧ config_start < byte_address + data.length then
      enter_tmod (exit_tmod { s with use_pe := false })
    else s
  if s1.use_pe = true then
    { s1 with trace := s1.trace ++ [Gen4Event.writePagePe byte_address data] }
  else
    let s2 := { s1 with trace := s1.trace ++ [Gen4Event.writePageRaw byte_address data] }
    if use_pe_original = true then
      enter_tmod_pe (exit_tmod { s2 with use_pe := true })
    else s2

/-- C9: whenever `_write_flash_chunk` runs with `use_pe` true in TMOD-PE
and `byte_address + len(data)` reaches past the config-words start, the
page write happens in raw TMOD (exit TMOD-PE, enter TMOD, raw write) and
TMOD-PE is re-entered afterwards; when PE mode was not in use, the write
is raw and TMOD-PE is never entered; when PE mode is in use and the
chunk stays below the config words, the write stays in PE mode. -/
theorem write_flash_chunk_config_tmod_switch (config_start byte_address : Nat)
    (data : List Nat) (tr : List Gen4Event)
    (hover : config_start < byte_address + data.length) :
    write_flash_chunk config_start ⟨false, true, true, tr⟩ byte_address data =
      ⟨false, true, true,
        tr ++ [Gen4Event.exitTmodPrim, Gen4Event.setSpeed, Gen4Event.enterTmodPrim,
          Gen4Event.readId, Gen4Event.writePageRaw byte_address data,
          Gen4Event.exitTmodPrim, Gen4Event.setSpeedPe, Gen4Event.enterTmodPePrim,
          Gen4Event.checkPeConnection]⟩ ∧
    (∀ (tmod tpe : Bool) (tr2 : List Gen4Event),
      write_flash_chunk config_start ⟨tmod, tpe, false, tr2⟩ byte_address data =
        ⟨tmod, tpe, false, tr2 ++ [Gen4Event.writePageRaw byte_address data]⟩) ∧
    (∀ (tr3 : List Gen4Event), byte_address + data.length ≤ config_start →
      write_flash_chunk config_start ⟨false, true, true, tr3⟩ byte_address data =
        ⟨false, true, true, tr3 ++ [Gen4Event.writePagePe byte_address data]⟩) := by
  refine ⟨?_, ?_, ?_⟩
  · simp [write_flash_chunk, enter_tmod, enter_tmod_pe, exit_tmod, hover]
  · intro tmod tpe tr2
    simp [write_flash_chunk]
  · intro tr3 hfit
    simp [write_flash_chunk, enter_tmod, enter_tmod_pe, exit_tmod, Nat.not_lt.mpr hfit]

/-- C9 witness: a one-byte chunk at the device's config-words start
address, written from TMOD-PE, is routed through raw TMOD and TMOD-PE is
re-entered. -/
theorem write_flash_chunk_config_tmod_switch_witness :
    write_flash_chunk CONFIG_START_ADDRESS_BYTE ⟨false, true, true, []⟩ 0x2BE00 [0] =
      ⟨false, true, true,
        [Gen4Event.exitTmodPrim, Gen4Event.setSpeed, Gen4Event.enterTmodPrim,
          Gen4Event.readId, Gen4Event.writePageRaw 0x2BE00 [0],
          Gen4Event.exitTmodPrim, Gen4Event.setSpeedPe, Gen4Event.enterTmodPePrim,
          Gen4Event.checkPeConnection]⟩ := by
  have h := write_flash_chunk_config_tmod_switch CONFIG_START_ADDRESS_BYTE 0x2BE00 [0] []
    (by decide)
  simpa using h.1

/-! ## Debug-mode flash read chunking (gen4engineinterface.py,
`debug_read_flash`)

The loop works on packed byte counts (`numbytes_actual = 3*numbytes/4`,
each 3 packed bytes covering 4 memory-map bytes) with a chunk size of
512 rounded down to a multiple of the 12-byte DE read pack size.  A
chunk starting below byte address 0x20000 that would reach it is clipped
to end exactly at the boundary (MPLABX-4374).  Each loop iteration
issues one DE read command, recorded as the pair
(byte_address, temp_chunk_size_bytes); a zero-sized chunk reads no data
and the loop aborts (`if not chunk: ... return`).  The loop is embedded
with `numbytes_actual` as fuel: every continuing iteration consumes at
least one packed byte, so the fuel never runs out before the loop's own
exit conditions. -/

/-- Method `de_read_flash_pack_size` of debuginterfaceprovider.py: the DE
transfers flash in 12-byte packs. -/
def de_read_flash_pack_size : Nat := 12

/-- The unclipped-vs-clipped chunk size choice of one `debug_read_flash`
iteration (`temp_chunk_size_bytes` before the leftover adjustment). -/
def debug_read_flash_t0 (chunk_size_bytes byte_address : Nat) : Nat :=
  if byte_address < 0x20000 ∧ 0x20000 ≤ byte_address + chunk_size_bytes * 4 / 3 then
    (0x20000 - byte_address) * 3 / 4
  else chunk_size_bytes

/-- Value `temp_chunk_size_bytes` after clamping to the remaining packed byte
count (`if temp_chunk_size_bytes > numbytes_actual: ... = numbytes_actual`). -/
def debug_read_flash_t (chunk_size_bytes byte_address numbytes_actual : Nat) : Nat :=
  if numbytes_actual < debug_read_flash_t0 chunk_size_bytes byte_address then
    numbytes_actual
  else debug_read_flash_t0 chunk_size_bytes byte_address

/-- The `while numbytes_actual > 0` loop of `debug_read_flash`, returning
the issued (byte_address, temp_chunk_size_bytes) read commands. -/
def debug_read_flash_loop (chunk_size_bytes : Nat) :
    Nat → Nat → Nat → List (Nat × Nat)
  | 0, _, _ => []
  | fuel + 1, byte_address, numbytes_actual =>
    if numbytes_actual = 0 then []
    else if debug_read_flash_t chunk_size_bytes byte_address numbytes_actual = 0 then
      [(byte_address, debug_read_flash_t chunk_size_bytes byte_address numbytes_actual)]
    else
      (byte_address, debug_read_flash_t chunk_size_bytes byte_address numbytes_actual) ::
        debug_read_flash_loop chunk_size_bytes fuel
          (byte_address +
            debug_read_flash_t chunk_size_bytes byte_address numbytes_actual * 4 / 3)
          (numbytes_actual -
            debug_read_flash_t chunk_size_bytes byte_address numbytes_actual)

/-- Method `debug_read_flash`: the sequence of DE read-command chunks issued for
a read of `numbytes` (memory-map) bytes from `byte_address`. -/
def debug_read_flash_chunks (byte_address numbytes : Nat) : List (Nat × Nat) :=
  debug_read_flash_loop (512 - 512 % de_read_flash_pack_size) (numbytes * 3 / 4)
    byte_address (numbytes * 3 / 4)

/-- A single chunk never straddles the 0x20000 byte-address boundary:
its memory-map range (4 bytes per 3 packed bytes) ends at or before the
boundary, or starts at or after it. -/
lemma debug_read_flash_t_boundary (chunk_size_bytes byte_address numbytes_actual : Nat) :
    byte_address +
        debug_read_flash_t chunk_size_bytes byte_address numbytes_actual * 4 / 3 ≤
      0x20000 ∨
    0x20000 ≤ byte_address := by
  unfold debug_read_flash_t debug_read_flash_t0
  split_ifs <;> omega

lemma debug_read_flash_loop_boundary (chunk_size_bytes : Nat) :
    ∀ (fuel byte_address numbytes_actual : Nat),
      ∀ p ∈ debug_read_flash_loop chunk_size_bytes fuel byte_address numbytes_actual,
        p.1 + p.2 * 4 / 3 ≤ 0x20000 ∨ 0x20000 ≤ p.1 := by
  intro fuel
  induction fuel with
  | zero =>
      intro addr rem p hp
      simp [debug_read_flash_loop] at hp
  | succ k ih =>
      intro addr rem p hp
      rw [debug_read_flash_loop] at hp
      split_ifs at hp with h0 ht
      · simp at hp
      · rw [List.mem_singleton] at hp
        subst hp
        exact debug_read_flash_t_boundary chunk_size_bytes addr rem
      · rcases List.mem_cons.mp hp with h | h
        · subst h
          exact debug_read_flash_t_boundary chunk_size_bytes addr rem
        · exact ih _ _ p h

/-- C6: every chunk issued by `debug_read_flash` covers a memory-map
range lying entirely at or below byte address 0x20000 or starting at or
above it, for every starting address and length; in particular the read
at 0x1FFF0 of 0x40 bytes splits into exactly two chunks, the first
ending at and the second starting at 0x20000. -/
theorem debug_read_flash_boundary :
    (∀ (byte_address numbytes : Nat),
      ∀ p ∈ debug_read_flash_chunks byte_address numbytes,
        p.1 + p.2 * 4 / 3 ≤ 0x20000 ∨ 0x20000 ≤ p.1) ∧
    debug_read_flash_chunks 0x1FFF0 0x40 = [(0x1FFF0, 12), (0x20000, 36)] := by
  constructor
  · intro byte_address numbytes p hp
    exact debug_read_flash_loop_boundary _ _ _ _ p hp
  · decide

/-- C6 witness: the boundary property of the first chunk of the
0x1FFF0/0x40 read. -/
theorem debug_read_flash_boundary_witness :
    (0x1FFF0 : Nat) + 12 * 4 / 3 ≤ 0x20000 ∨ (0x20000 : Nat) ≤ 0x1FFF0 :=
  debug_read_flash_boundary.1 0x1FFF0 0x40 (0x1FFF0, 12) (by decide)

/-! ## Flash block writing (gen4engineinterface.py, `_write_flash_block`)

`_write_flash_block` splits the data into chunks of 512 rounded down to
a multiple of the device row size (`chunks(data, chunksize)`, i.e.
`data[i:i+chunksize]` for `i in range(0, len(data), chunksize)`), skips
chunks that are blank (all 0xFF), and for every other chunk pads it to a
row multiple with 0xFF (`pad`) and hands it to `_write_flash_chunk` at
`byte_address + i`. -/

/-- Function `is_blank` of gen4engineinterface.py: every byte is 0xFF. -/
def is_blank (data : List Nat) : Bool :=
  data.all (fun d => d == 0xFF)

/-- Method `Gen4WrapperDebugger.pad`: extend a copy of the chunk with 0xFF bytes
until its length is a multiple of `pagesize`. -/
def pad (data : List Nat) (pagesize : Nat) : List Nat :=
  padToMultiple pagesize 0xFF data

/-- Method `Gen4WrapperDebugger.chunks`: successive `chunk_size`-sized slices
`data[i:i+chunk_size]` for `i in range(0, len(data), chunk_size)`. -/
def chunks (chunk_size : Nat) (data : List Nat) : List (List Nat) :=
  (List.range' 0 ((data.length + chunk_size - 1) / chunk_size) chunk_size).map
    (fun i => (data.drop i).take chunk_size)

/-- The `for chunk in self.chunks(...)` loop of `_write_flash_block`:
skip blank chunks, otherwise emit the padded page write, incrementing
the address by `chunksize` per chunk. -/
def write_flash_loop (pagesize chunksize : Nat) (byte_address : Nat) :
    List (List Nat) → List (Nat × List Nat)
  | [] => []
  | chunk :: rest =>
    if is_blank chunk = true then
      write_flash_loop pagesize chunksize (byte_address + chunksize) rest
    else
      (byte_address, pad chunk pagesize) ::
        write_flash_loop pagesize chunksize (byte_address + chunksize) rest

/-- Method `_write_flash_block`: the page writes issued (address and padded
data) for a block write, with `chunksize = 512 - 512 % pagesize`. -/
def write_flash_block (pagesize byte_address : Nat) (data : List Nat) :
    List (Nat × List Nat) :=
  write_flash_loop pagesize (512 - 512 % pagesize) byte_address
    (chunks (512 - 512 % pagesize) data)

lemma write_flash_loop_range (pagesize chunksize base : Nat) (data : List Nat) :
    ∀ (n s : Nat),
      write_flash_loop pagesize chunksize (base + s)
          ((List.range' s n chunksize).map (fun i => (data.drop i).take chunksize)) =
        (List.range' s n chunksize).filterMap
          (fun i => if is_blank ((data.drop i).take chunksize) = true then none
            else some (base + i, pad ((data.drop i).take chunksize) pagesize)) := by
  intro n
  induction n with
  | zero => intro s; rfl
  | succ m ih =>
      intro s
      have ihs := ih (s + chunksize)
      rw [← Nat.add_assoc] at ihs
      rw [List.range'_succ, List.map_cons, List.filterMap_cons]
      by_cases hb : is_blank ((data.drop s).take chunksize) = true
      · simp [write_flash_loop, hb, ihs]
      · simp [write_flash_loop, hb, ihs]

/-- C8: `_write_flash_block` issues exactly one page write for every
non-blank chunk (at address `byte_address + i` for the chunk at offset
`i`) and none for blank (all-0xFF) chunks; every issued write is a
non-blank chunk padded with 0xFF bytes to a multiple of the flash row
size. -/
theorem write_flash_block_blank_skip_and_padding (pagesize byte_address : Nat)
    (data : List Nat) :
    write_flash_block pagesize byte_address data =
      (List.range' 0 ((data.length + (512 - 512 % pagesize) - 1) /
          (512 - 512 % pagesize)) (512 - 512 % pagesize)).filterMap
        (fun i =>
          if is_blank ((data.drop i).take (512 - 512 % pagesize)) = true then none
          else some (byte_address + i,
            pad ((data.drop i).take (512 - 512 % pagesize)) pagesize)) ∧
    (0 < pagesize → ∀ p ∈ write_flash_block pagesize byte_address data,
      p.2.length % pagesize = 0 ∧
      ∃ c ∈ chunks (512 - 512 % pagesize) data, is_blank c = false ∧
        ∃ k, p.2 = c ++ List.replicate k 0xFF) := by
  have hmain : write_flash_block pagesize byte_address data =
      (List.range' 0 ((data.length + (512 - 512 % pagesize) - 1) /
          (512 - 512 % pagesize)) (512 - 512 % pagesize)).filterMap
        (fun i =>
          if is_blank ((data.drop i).take (512 - 512 % pagesize)) = true then none
          else some (byte_address + i,
            pad ((data.drop i).take (512 - 512 % pagesize)) pagesize)) := by
    have h := write_flash_loop_range pagesize (512 - 512 % pagesize) byte_address data
      ((data.length + (512 - 512 % pagesize) - 1) / (512 - 512 % pagesize)) 0
    simpa [write_flash_block, chunks] using h
  refine ⟨hmain, fun hpos p hp => ?_⟩
  rw [hmain] at hp
  rcases List.mem_filterMap.mp hp with ⟨i, hi, hfi⟩
  by_cases hb : is_blank ((data.drop i).take (512 - 512 % pagesize)) = true
  · simp [hb] at hfi
  · rw [if_neg hb, Option.some_inj] at hfi
    subst hfi
    refine ⟨padToMultiple_length_mod pagesize 0xFF hpos _, ?_⟩
    refine ⟨(data.drop i).take (512 - 512 % pagesize), ?_, ?_, _, rfl⟩
    · exact List.mem_map.mpr ⟨i, hi, rfl⟩
    · simpa using hb

/-- C8 witness: with row size 4, writing `[0]` (one non-blank byte)
issues exactly one write, padded with 0xFF to one full row. -/
theorem write_flash_block_blank_skip_and_padding_witness :
    (0 : Nat) < 4 ∧ (0, [0, 0xFF, 0xFF, 0xFF]) ∈ write_flash_block 4 0 [0] ∧
    ([0, 0xFF, 0xFF, 0xFF] : List Nat).length % 4 = 0 ∧
    ∃ c ∈ chunks (512 - 512 % 4) [0], is_blank c = false ∧
      ∃ k, ([0, 0xFF, 0xFF, 0xFF] : List Nat) = c ++ List.replicate k 0xFF := by
  refine ⟨by decide, by decide, ?_⟩
  have h := (write_flash_block_blank_skip_and_padding 4 0 [0]).2 (by decide)
    (0, [0, 0xFF, 0xFF, 0xFF]) (by decide)
  exact h

end PyKitCommander
